import Mathlib

/-!
Verification of the OrderBook_TradingBot sources (`main.py`, `data_stream.py`,
`signal.py`) against their natural-language specification.

The Python code is shallowly embedded: dictionaries become structures, float
arithmetic becomes exact rational arithmetic (`ℚ`), the fixed-capacity
`deque(maxlen=n)` rings become lists trimmed from the front, fallible paths
return `Except`/`Option`, and the exchange's responses (order ids, order
statuses) are passed in as explicit parameters.  Field and function names
follow the source.
-/

/-- A trade record as built by `_process_trades` / `_process_aggtrades`
(`data_stream.py`): `{"price", "qty", "is_buyer_maker", "time", "side"}`,
with `time` in milliseconds. -/
structure Trade where
  price : ℚ
  qty : ℚ
  is_buyer_maker : Bool
  time : Nat
  side : String
deriving DecidableEq

/-- A volume bucket as built by `_update_volumes_locked` (`data_stream.py`):
`{"time": current_time, "volume": current_volume}`, `time` in seconds,
minute-aligned. -/
structure Bucket where
  time : Nat
  volume : ℚ
deriving DecidableEq

/-- The `position` dictionary (`main.py` lines 42-50 and `data_stream.py`
lines 15-23 declare records of this exact shape). -/
structure Position where
  state : String
  entry_order_id : Option Int
  stop_order_id : Option Int
  entry : Option ℚ
  qty : ℚ
  max_pnl : ℚ
  stop_price : Option ℚ
deriving DecidableEq

/-- The initial value of the `position` dictionary in both modules. -/
def initPosition : Position :=
  { state := "none", entry_order_id := none, stop_order_id := none,
    entry := none, qty := 0, max_pnl := 0, stop_price := none }

/-- A command placed on `command_queue`: the tuple
`('place_stop_order', stop_side, qty, stop_price)` of `data_stream.py`
line 103. -/
structure Command where
  tag : String
  side : String
  qty : ℚ
  price : ℚ
deriving DecidableEq

/-- The `'o'` payload of an `ORDER_TRADE_UPDATE` user-stream message:
order id `i`, status `X`, side `S`, cumulative filled quantity `z`,
average fill price `ap`. -/
structure UOrder where
  i : Int
  X : String
  S : String
  z : ℚ
  ap : ℚ
deriving DecidableEq

/-- A user-stream message: event tag `e` plus order payload `o`. -/
structure UserMsg where
  e : String
  o : UOrder
deriving DecidableEq

/-- The result of an exchange order call: a `status` string and an
optional order id (`place_market_order` returns
`{"status": ..., "orderId": ...}`; a failed call yields
`{"status": "FAILED", "orderId": None}`). -/
structure OrderRes where
  status : String
  orderId : Option Int
deriving DecidableEq

/-- A market order submission, recorded for the frame theorems:
`place_market_order(side, qty)`. -/
structure MOrder where
  side : String
  qty : ℚ
deriving DecidableEq

namespace DS

/-!  ## data_stream.py  -/

/-- A raw websocket message, reduced to its event-type tag `e` (the only
field the feed adapters inspect before enqueueing). -/
structure WMsg where
  e : String
deriving DecidableEq

/-- `MAX_QUEUE = 1000` (`data_stream.py` line 30). -/
def MAX_QUEUE : Nat := 1000

/-- `queue.Queue(MAX_QUEUE).put_nowait`: appends unless the queue is at
capacity, in which case the message is dropped (the handler logs a
warning). -/
def put_nowait (q : List WMsg) (m : WMsg) : List WMsg :=
  if q.length < MAX_QUEUE then q ++ [m] else q

/-- `depth_handler` (`data_stream.py` lines 60-66): discards messages whose
event tag is not `depthUpdate`, otherwise enqueues. -/
def depth_handler (q : List WMsg) (m : WMsg) : List WMsg :=
  if m.e ≠ "depthUpdate" then q else put_nowait q m

/-- `trade_handler` (`data_stream.py` lines 68-72): enqueues every message,
with no event-type check. -/
def trade_handler (q : List WMsg) (m : WMsg) : List WMsg :=
  put_nowait q m

/-- `aggtrade_handler` (`data_stream.py` lines 74-78): enqueues every
message, with no event-type check. -/
def aggtrade_handler (q : List WMsg) (m : WMsg) : List WMsg :=
  put_nowait q m

/-- `ticker_handler` (`data_stream.py` lines 80-84): enqueues every message,
with no event-type check. -/
def ticker_handler (q : List WMsg) (m : WMsg) : List WMsg :=
  put_nowait q m

/-- `user_handler` (`data_stream.py` lines 86-113), acting on the
`position` record; returns the updated record together with the list of
commands appended to `command_queue` during the call. -/
def user_handler (pos : Position) (m : UserMsg) : Position × List Command :=
  if m.e = "ORDER_TRADE_UPDATE" then
    let o := m.o
    if o.X = "FILLED" then
      if some o.i = pos.entry_order_id then
        let newState := if o.S = "BUY" then "long" else "short"
        let stop_price := o.ap * (if o.S = "BUY" then 1 - 2/100 else 1 + 2/100)
        let stop_side := if o.S = "BUY" then "SELL" else "BUY"
        ({ pos with state := newState, entry := some o.ap, qty := o.z, max_pnl := 0 },
         [{ tag := "place_stop_order", side := stop_side, qty := o.z, price := stop_price }])
      else if some o.i = pos.stop_order_id then
        ({ state := "none", entry_order_id := none, stop_order_id := none,
           entry := none, qty := 0, max_pnl := 0, stop_price := none }, [])
      else (pos, [])
    else (pos, [])
  else (pos, [])

end DS

namespace Main

/-!  ## main.py  -/

/-- `LEVERAGE = 20` (`main.py` line 30). -/
def LEVERAGE : ℚ := 20

/-- `RISK_PER_TRADE = 0.9` (`main.py` line 31). -/
def RISK_PER_TRADE : ℚ := 9/10

/-- `DYNAMIC_SL = 0.02` (`main.py` line 33). -/
def DYNAMIC_SL : ℚ := 2/100

/-- Python `round` to the nearest integer with ties to even, on exact
rationals (`main.py` uses `round(qty, 3)` on floats; the exact decimal
half-even rule is the idealisation of that). -/
def pyRoundHalfEven (x : ℚ) : Int :=
  let f : Int := Int.floor x
  let r : ℚ := x - f
  if r < 1/2 then f
  else if 1/2 < r then f + 1
  else if f % 2 = 0 then f else f + 1

/-- `round(x, 3)`. -/
def pyRound3 (x : ℚ) : ℚ :=
  (pyRoundHalfEven (x * 1000) : ℚ) / 1000

/-- `calc_qty` (`main.py` lines 63-66):
`round(balance * RISK_PER_TRADE * LEVERAGE / price, 3)`. -/
def calc_qty (balance price : ℚ) : ℚ :=
  pyRound3 (balance * RISK_PER_TRADE * LEVERAGE / price)

/-- `enter_position` (`main.py` lines 154-171).  The ticker price, fetched
balance and the exchange's response to the market order are inputs from the
environment.  Returns the updated `position` record and the list of market
orders submitted during the call. -/
def enter_position (sig : String) (price balance : ℚ) (res : OrderRes)
    (pos : Position) : Position × List MOrder :=
  let qty := calc_qty balance price
  if qty * price < 20 then (pos, [])
  else
    let side := if sig = "BUY" then "BUY" else "SELL"
    if res.status = "FAILED" then (pos, [{ side := side, qty := qty }])
    else ({ pos with entry_order_id := res.orderId }, [{ side := side, qty := qty }])

/-- `close_position` (`main.py` lines 173-185).  The exchange's response to
the market close order is an input.  Returns the updated record and the
submitted market orders. -/
def close_position (res : OrderRes) (pos : Position) : Position × List MOrder :=
  if pos.state = "none" then (pos, [])
  else
    let side := if pos.state = "long" then "SELL" else "BUY"
    if res.status = "FAILED" then (pos, [{ side := side, qty := pos.qty }])
    else ({ state := "none", entry_order_id := none, stop_order_id := none,
            entry := none, qty := 0, max_pnl := 0, stop_price := none },
          [{ side := side, qty := pos.qty }])

/-- `update_trailing_stop` (`main.py` lines 134-152).  `stopRes` is the
order id returned by `place_stop_order` when a replacement stop is placed.
Returns `none` where the Python would raise (arithmetic on
`position["entry"] = None` while the state is open). -/
def update_trailing_stop (pos : Position) (current_price : ℚ)
    (stopRes : Option Int) : Option Position :=
  if pos.state = "none" then some pos
  else
    match pos.entry with
    | none => none
    | some entry =>
      let pnl := if pos.state = "long"
        then (current_price - entry) * pos.qty * LEVERAGE
        else (entry - current_price) * pos.qty * LEVERAGE
      if pnl > pos.max_pnl then
        let trail_pnl := pnl * (1 - DYNAMIC_SL)
        let price_diff := trail_pnl / (pos.qty * LEVERAGE)
        let new_stop := if pos.state = "long" then entry + price_diff
                        else entry - price_diff
        if some new_stop ≠ pos.stop_price then
          some { pos with max_pnl := pnl, stop_price := some new_stop,
                          stop_order_id := stopRes }
        else
          some { pos with max_pnl := pnl }
      else some pos

/-- The trace of `position` records seen across a sequence of
`update_trailing_stop` calls: the starting record followed by the record
after each call.  Each list entry pairs the current price with the order
id the exchange returns for the replacement stop order. -/
def trailing_trace : Position → List (ℚ × Option Int) → Option (List Position)
  | pos, [] => some [pos]
  | pos, x :: xs =>
    (update_trailing_stop pos x.1 x.2).bind fun p =>
      (trailing_trace p xs).map (pos :: ·)

/-- The state of an open long position as the program produces it after an
entry fill: any recorded stop price lies at or below the ratchet level
`entry + max_pnl * (1 - DYNAMIC_SL) / (qty * LEVERAGE)` (immediately after
a fill the stop is `0.98 * entry ≤ entry` and `max_pnl = 0`). -/
def long_inv (pos : Position) : Prop :=
  pos.state = "long" ∧ 0 < pos.qty ∧ 0 ≤ pos.max_pnl ∧
  ∃ e, pos.entry = some e ∧
    ∀ s, pos.stop_price = some s →
      s ≤ e + pos.max_pnl * (1 - DYNAMIC_SL) / (pos.qty * LEVERAGE)

/-- The state of an open short position as the program produces it after an
entry fill: any recorded stop price lies at or above the ratchet level
`entry - max_pnl * (1 - DYNAMIC_SL) / (qty * LEVERAGE)`. -/
def short_inv (pos : Position) : Prop :=
  pos.state = "short" ∧ 0 < pos.qty ∧ 0 ≤ pos.max_pnl ∧
  ∃ e, pos.entry = some e ∧
    ∀ s, pos.stop_price = some s →
      e - pos.max_pnl * (1 - DYNAMIC_SL) / (pos.qty * LEVERAGE) ≤ s

theorem long_step (pos : Position) (pr : ℚ) (sid : Option Int)
    (h : long_inv pos) :
    ∃ pos', update_trailing_stop pos pr sid = some pos' ∧ long_inv pos' ∧
      (∀ s, pos.stop_price = some s →
        ∃ s', pos'.stop_price = some s' ∧ s ≤ s') := by
  obtain ⟨hst, hq, hm, e, he, hs⟩ := h
  obtain ⟨st, eoid, soid, en, q, mp, sp⟩ := pos
  simp only at hst he hs hq hm
  subst hst
  subst he
  simp only at hq hm hs ⊢
  have hqL : 0 < q * LEVERAGE := mul_pos hq (by norm_num [LEVERAGE])
  have hL : (0:ℚ) < 1 - DYNAMIC_SL := by norm_num [DYNAMIC_SL]
  have e1 : ¬ ("long" : String) = "none" := by decide
  have e2 : ("long" : String) = "long" := rfl
  simp only [update_trailing_stop, if_neg e1, if_pos e2, if_true]
  by_cases hgt : (pr - e) * q * LEVERAGE > mp
  · rw [if_pos hgt]
    have hbound : e + mp * (1 - DYNAMIC_SL) / (q * LEVERAGE) <
        e + (pr - e) * q * LEVERAGE * (1 - DYNAMIC_SL) / (q * LEVERAGE) := by
      have h1 : mp * (1 - DYNAMIC_SL) < (pr - e) * q * LEVERAGE * (1 - DYNAMIC_SL) :=
        mul_lt_mul_of_pos_right hgt hL
      exact add_lt_add_left (div_lt_div_of_pos_right h1 hqL) e
    have hm' : 0 ≤ (pr - e) * q * LEVERAGE := le_of_lt (lt_of_le_of_lt hm hgt)
    by_cases hdiff :
        some (e + (pr - e) * q * LEVERAGE * (1 - DYNAMIC_SL) / (q * LEVERAGE)) ≠ sp
    · rw [if_pos hdiff]
      refine ⟨_, rfl, ⟨rfl, hq, hm', e, rfl, ?_⟩, ?_⟩
      · intro s hs'
        simp only [Option.some.injEq] at hs'
        subst hs'
        exact le_refl _
      · intro s hsome
        refine ⟨_, rfl, ?_⟩
        subst hsome
        exact le_trans (hs s rfl) (le_of_lt hbound)
    · rw [if_neg hdiff]
      push_neg at hdiff
      refine ⟨_, rfl, ⟨rfl, hq, hm', e, rfl, ?_⟩, ?_⟩
      · intro s hs'
        rw [← hdiff] at hs'
        simp only [Option.some.injEq] at hs'
        subst hs'
        exact le_refl _
      · intro s hsome
        exact ⟨s, hsome, le_refl s⟩
  · rw [if_neg hgt]
    exact ⟨_, rfl, ⟨rfl, hq, hm, e, rfl, hs⟩,
      fun s hsome => ⟨s, hsome, le_refl s⟩⟩

theorem short_step (pos : Position) (pr : ℚ) (sid : Option Int)
    (h : short_inv pos) :
    ∃ pos', update_trailing_stop pos pr sid = some pos' ∧ short_inv pos' ∧
      (∀ s, pos.stop_price = some s →
        ∃ s', pos'.stop_price = some s' ∧ s' ≤ s) := by
  obtain ⟨hst, hq, hm, e, he, hs⟩ := h
  obtain ⟨st, eoid, soid, en, q, mp, sp⟩ := pos
  simp only at hst he hs hq hm
  subst hst
  subst he
  simp only at hq hm hs ⊢
  have hqL : 0 < q * LEVERAGE := mul_pos hq (by norm_num [LEVERAGE])
  have hL : (0:ℚ) < 1 - DYNAMIC_SL := by norm_num [DYNAMIC_SL]
  have e1 : ¬ ("short" : String) = "none" := by decide
  have e2 : ¬ ("short" : String) = "long" := by decide
  simp only [update_trailing_stop, if_neg e1, if_neg e2, if_true, if_false]
  by_cases hgt : (e - pr) * q * LEVERAGE > mp
  · rw [if_pos hgt]
    have hbound : e - (e - pr) * q * LEVERAGE * (1 - DYNAMIC_SL) / (q * LEVERAGE) <
        e - mp * (1 - DYNAMIC_SL) / (q * LEVERAGE) := by
      have h1 : mp * (1 - DYNAMIC_SL) < (e - pr) * q * LEVERAGE * (1 - DYNAMIC_SL) :=
        mul_lt_mul_of_pos_right hgt hL
      exact sub_lt_sub_left (div_lt_div_of_pos_right h1 hqL) e
    have hm' : 0 ≤ (e - pr) * q * LEVERAGE := le_of_lt (lt_of_le_of_lt hm hgt)
    by_cases hdiff :
        some (e - (e - pr) * q * LEVERAGE * (1 - DYNAMIC_SL) / (q * LEVERAGE)) ≠ sp
    · rw [if_pos hdiff]
      refine ⟨_, rfl, ⟨rfl, hq, hm', e, rfl, ?_⟩, ?_⟩
      · intro s hs'
        simp only [Option.some.injEq] at hs'
        subst hs'
        exact le_refl _
      · intro s hsome
        refine ⟨_, rfl, ?_⟩
        subst hsome
        exact le_trans (le_of_lt hbound) (hs s rfl)
    · rw [if_neg hdiff]
      push_neg at hdiff
      refine ⟨_, rfl, ⟨rfl, hq, hm', e, rfl, ?_⟩, ?_⟩
      · intro s hs'
        rw [← hdiff] at hs'
        simp only [Option.some.injEq] at hs'
        subst hs'
        exact le_refl _
      · intro s hsome
        exact ⟨s, hsome, le_refl s⟩
  · rw [if_neg hgt]
    exact ⟨_, rfl, ⟨rfl, hq, hm, e, rfl, hs⟩,
      fun s hsome => ⟨s, hsome, le_refl s⟩⟩

theorem trailing_trace_shape (l : List (ℚ × Option Int)) (pos : Position)
    (tr : List Position) (h : trailing_trace pos l = some tr) :
    ∃ rest, tr = pos :: rest := by
  cases l with
  | nil =>
    simp only [trailing_trace, Option.some.injEq] at h
    exact ⟨[], h.symm⟩
  | cons x xs =>
    simp only [trailing_trace, Option.bind_eq_some, Option.map_eq_some'] at h
    obtain ⟨p, _, tr', _, htr⟩ := h
    exact ⟨tr', htr.symm⟩

theorem long_chain (l : List (ℚ × Option Int)) :
    ∀ (pos : Position) (tr : List Position), long_inv pos →
      trailing_trace pos l = some tr →
      List.Chain' (· ≤ ·) (tr.filterMap Position.stop_price) := by
  induction l with
  | nil =>
    intro pos tr _ h
    simp only [trailing_trace, Option.some.injEq] at h
    subst h
    cases hsp : pos.stop_price <;> simp [List.filterMap, hsp]
  | cons x xs ih =>
    intro pos tr hinv h
    simp only [trailing_trace, Option.bind_eq_some, Option.map_eq_some'] at h
    obtain ⟨p, hup, tr', htr', rfl⟩ := h
    obtain ⟨p₂, hup₂, hinv₂, hmap⟩ := long_step pos x.1 x.2 hinv
    rw [hup] at hup₂
    injection hup₂ with hp
    subst hp
    have hchain := ih p tr' hinv₂ htr'
    cases hsp : pos.stop_price with
    | none => simpa [List.filterMap_cons, hsp] using hchain
    | some s =>
      obtain ⟨s', hs', hle⟩ := hmap s hsp
      obtain ⟨rest, rfl⟩ := trailing_trace_shape xs p tr' htr'
      rw [List.filterMap_cons, hsp]
      rw [List.filterMap_cons, hs'] at hchain ⊢
      exact List.Chain'.cons hle hchain

theorem short_chain (l : List (ℚ × Option Int)) :
    ∀ (pos : Position) (tr : List Position), short_inv pos →
      trailing_trace pos l = some tr →
      List.Chain' (· ≥ ·) (tr.filterMap Position.stop_price) := by
  induction l with
  | nil =>
    intro pos tr _ h
    simp only [trailing_trace, Option.some.injEq] at h
    subst h
    cases hsp : pos.stop_price <;> simp [List.filterMap, hsp]
  | cons x xs ih =>
    intro pos tr hinv h
    simp only [trailing_trace, Option.bind_eq_some, Option.map_eq_some'] at h
    obtain ⟨p, hup, tr', htr', rfl⟩ := h
    obtain ⟨p₂, hup₂, hinv₂, hmap⟩ := short_step pos x.1 x.2 hinv
    rw [hup] at hup₂
    injection hup₂ with hp
    subst hp
    have hchain := ih p tr' hinv₂ htr'
    cases hsp : pos.stop_price with
    | none => simpa [List.filterMap_cons, hsp] using hchain
    | some s =>
      obtain ⟨s', hs', hle⟩ := hmap s hsp
      obtain ⟨rest, rfl⟩ := trailing_trace_shape xs p tr' htr'
      rw [List.filterMap_cons, hsp]
      rw [List.filterMap_cons, hs'] at hchain ⊢
      exact List.Chain'.cons hle hchain

/-- The trading loop's truncation of the snapshot's bid/ask level lists
(`main.py` lines 213-219): both sides are cut to the length of the shorter
one before the decision frame is built. -/
def truncate_levels (bids asks : List (ℚ × ℚ)) :
    List (ℚ × ℚ) × List (ℚ × ℚ) :=
  let min_len := min bids.length asks.length
  (bids.take min_len, asks.take min_len)

end Main

namespace Sig

/-!  ## signal.py -/

/-- One row of the order-book decision frame built by `run_trading`
(`main.py` lines 222-227): aligned bid and ask levels. -/
structure OBRow where
  price : ℚ
  bid_qty : ℚ
  ask_price : ℚ
  ask_qty : ℚ
deriving DecidableEq

/-- `order_book_pressure` (`signal.py` lines 38-43): ratio of summed bid
quantity to summed ask quantity, `1` when the ask sum is zero. -/
def order_book_pressure (df : List OBRow) : ℚ :=
  let bid_volume := (df.map OBRow.bid_qty).sum
  let ask_volume := (df.map OBRow.ask_qty).sum
  if ask_volume = 0 then 1 else bid_volume / ask_volume

/-- `trade_dominance` (`signal.py` lines 45-52): ratio of summed BUY
quantity to summed SELL quantity over the trades frame, `1` when the
frame is empty or the SELL sum is zero. -/
def trade_dominance (trades_df : List Trade) : ℚ :=
  if trades_df = [] then 1
  else
    let buys := ((trades_df.filter (fun t => t.side = "BUY")).map Trade.qty).sum
    let sells := ((trades_df.filter (fun t => t.side = "SELL")).map Trade.qty).sum
    if sells = 0 then 1 else buys / sells

end Sig

/-!  ## Claim C10: the ratio metrics are total with neutral fallback -/

/-- C10: `order_book_pressure` returns `1` on any frame whose summed ask
quantity is zero, and `trade_dominance` returns `1` on any trades frame
that is empty or whose summed SELL quantity is zero, so neither metric
divides by zero. -/
theorem ratio_metrics_total (df : List Sig.OBRow) (trades_df : List Trade) :
    ((df.map Sig.OBRow.ask_qty).sum = 0 → Sig.order_book_pressure df = 1) ∧
    (trades_df = [] ∨
        ((trades_df.filter (fun t => t.side = "SELL")).map Trade.qty).sum = 0 →
      Sig.trade_dominance trades_df = 1) := by
  constructor
  · intro h
    simp [Sig.order_book_pressure, h]
  · rintro (h | h) <;> simp [Sig.trade_dominance, h]

/-- Concrete instance of `ratio_metrics_total`: a frame with zero resting
ask quantity and an empty trades list both map to the neutral ratio 1. -/
theorem ratio_metrics_total_witness :
    Sig.order_book_pressure [{ price := 100, bid_qty := 2, ask_price := 101, ask_qty := 0 }] = 1 ∧
    Sig.trade_dominance [] = 1 := by
  have h := ratio_metrics_total
    [{ price := 100, bid_qty := 2, ask_price := 101, ask_qty := 0 }] []
  exact ⟨h.1 (by norm_num), h.2 (Or.inl rfl)⟩

/-!  ## Claim C1: the trailing stop only tightens -/

/-- C1: starting from an open position as the program produces it after a
fill (`long_inv` / `short_inv`: positive quantity, non-negative best-seen
PnL, and any recorded stop at or inside the ratchet level), any sequence of
`update_trailing_stop` calls at arbitrary current prices yields a sequence
of recorded stop prices that never moves against the position:
non-decreasing for a long position and non-increasing for a short one. -/
theorem trailing_stop_ratchet (pos : Position) (l : List (ℚ × Option Int))
    (tr : List Position) (htr : Main.trailing_trace pos l = some tr) :
    (Main.long_inv pos →
      List.Chain' (· ≤ ·) (tr.filterMap Position.stop_price)) ∧
    (Main.short_inv pos →
      List.Chain' (· ≥ ·) (tr.filterMap Position.stop_price)) :=
  ⟨fun h => Main.long_chain l pos tr h htr,
   fun h => Main.short_chain l pos tr h htr⟩

/-- Starting point for the ratchet witness: a long position filled at 100
with quantity 1 and the initial 2% stop at 98. -/
def ratchetPos : Position :=
  { state := "long", entry_order_id := some 1, stop_order_id := none,
    entry := some 100, qty := 1, max_pnl := 0, stop_price := some 98 }

/-- Price path for the ratchet witness, with the ids of the replacement
stop orders. -/
def ratchetPrices : List (ℚ × Option Int) := [(101, some 5), (103, some 6)]

/-- Trace produced by `ratchetPrices` from `ratchetPos`. -/
def ratchetTr : List Position :=
  [ratchetPos,
   { state := "long", entry_order_id := some 1, stop_order_id := some 5,
     entry := some 100, qty := 1, max_pnl := 20, stop_price := some (5049/50) },
   { state := "long", entry_order_id := some 1, stop_order_id := some 6,
     entry := some 100, qty := 1, max_pnl := 60, stop_price := some (5147/50) }]

/-- Concrete instance of `trailing_stop_ratchet`: along the improving
price path 101, 103 the recorded stops 98, 100.98, 102.94 are
non-decreasing. -/
theorem trailing_stop_ratchet_witness :
    Main.trailing_trace ratchetPos ratchetPrices = some ratchetTr ∧
    Main.long_inv ratchetPos ∧
    List.Chain' (· ≤ ·) (ratchetTr.filterMap Position.stop_price) := by
  have htr : Main.trailing_trace ratchetPos ratchetPrices = some ratchetTr := by
    norm_num +decide [Main.trailing_trace, Main.update_trailing_stop, ratchetPos,
      ratchetPrices, ratchetTr, Main.DYNAMIC_SL, Main.LEVERAGE]
  have hinv : Main.long_inv ratchetPos := by
    refine ⟨rfl, by norm_num [ratchetPos], by norm_num [ratchetPos], 100, rfl, ?_⟩
    intro s hs
    simp only [ratchetPos, Option.some.injEq] at hs
    subst hs
    norm_num [Main.DYNAMIC_SL, Main.LEVERAGE, ratchetPos]
  exact ⟨htr, hinv,
    (trailing_stop_ratchet ratchetPos ratchetPrices ratchetTr htr).1 hinv⟩

/-!  ## Claim C2: entry-fill handling in `user_handler` -/

/-- C2: when `user_handler` receives an `ORDER_TRADE_UPDATE` with status
`FILLED` whose order id equals the recorded `entry_order_id`, then for side
`BUY` it sets the state to `long`, `entry` to the average fill price,
`qty` to the cumulative filled quantity, `max_pnl` to `0`, and enqueues
exactly one `place_stop_order` command with side `SELL`, quantity `q` and
stop price `p * (1 - 0.02)`; symmetrically for side `SELL` it sets the
state to `short` and enqueues one `BUY` stop command at `p * (1 + 0.02)`. -/
theorem user_handler_entry_fill (pos : Position) (m : UserMsg)
    (he : m.e = "ORDER_TRADE_UPDATE") (hx : m.o.X = "FILLED")
    (hid : pos.entry_order_id = some m.o.i) :
    (m.o.S = "BUY" →
      DS.user_handler pos m =
        ({ pos with state := "long", entry := some m.o.ap, qty := m.o.z,
                    max_pnl := 0 },
         [{ tag := "place_stop_order", side := "SELL", qty := m.o.z,
            price := m.o.ap * (1 - 2/100) }])) ∧
    (m.o.S = "SELL" →
      DS.user_handler pos m =
        ({ pos with state := "short", entry := some m.o.ap, qty := m.o.z,
                    max_pnl := 0 },
         [{ tag := "place_stop_order", side := "BUY", qty := m.o.z,
            price := m.o.ap * (1 + 2/100) }])) := by
  constructor <;> intro hs <;>
    simp [DS.user_handler, he, hx, hid, hs]

/-- Concrete instance of `user_handler_entry_fill`: the spec's scenario
(order 42, side BUY, qty 1, average price 100) yields a long position at
entry 100 and exactly one SELL stop command at 98. -/
theorem user_handler_entry_fill_witness :
    let pos : Position := { initPosition with entry_order_id := some 42 }
    let m : UserMsg := { e := "ORDER_TRADE_UPDATE",
                         o := { i := 42, X := "FILLED", S := "BUY", z := 1, ap := 100 } }
    pos.entry_order_id = some m.o.i ∧
    DS.user_handler pos m =
      ({ pos with state := "long", entry := some 100, qty := 1, max_pnl := 0 },
       [{ tag := "place_stop_order", side := "SELL", qty := 1, price := 98 }]) := by
  refine ⟨rfl, ?_⟩
  have h := (user_handler_entry_fill
    { initPosition with entry_order_id := some 42 }
    { e := "ORDER_TRADE_UPDATE",
      o := { i := 42, X := "FILLED", S := "BUY", z := 1, ap := 100 } }
    rfl rfl rfl).1 rfl
  rw [h]
  norm_num

/-!  ## Claim C7: event-type filtering at the feed adapters -/

/-- C7 counterexample: the trade adapter enqueues a message whose event
tag is `depthUpdate` (not a trade event) onto the trade queue, so it is
not true that every adapter filters mismatched event types before
enqueue. -/
theorem trade_handler_no_filter_counterexample :
    DS.trade_handler [] { e := "depthUpdate" } = [{ e := "depthUpdate" }] ∧
    ({ e := "depthUpdate" } : DS.WMsg).e ≠ "trade" := by
  constructor
  · rfl
  · decide

/-- C7 amended: only the depth adapter filters by event-type tag — it
discards any message whose tag is not `depthUpdate` and enqueues matching
ones; the trade, aggregated-trade and ticker adapters enqueue every
message regardless of its tag (dropping only on queue overflow). -/
theorem adapter_filtering (q : List DS.WMsg) (m : DS.WMsg) :
    (m.e ≠ "depthUpdate" → DS.depth_handler q m = q) ∧
    (m.e = "depthUpdate" → q.length < DS.MAX_QUEUE →
        DS.depth_handler q m = q ++ [m]) ∧
    (q.length < DS.MAX_QUEUE →
        DS.trade_handler q m = q ++ [m] ∧
        DS.aggtrade_handler q m = q ++ [m] ∧
        DS.ticker_handler q m = q ++ [m]) := by
  refine ⟨fun h => ?_, fun h hq => ?_, fun hq => ⟨?_, ?_, ?_⟩⟩ <;>
    simp [DS.depth_handler, DS.trade_handler, DS.aggtrade_handler,
          DS.ticker_handler, DS.put_nowait, *]

/-- Concrete instance of `adapter_filtering`: on an empty queue, the depth
adapter drops a `trade`-tagged message while the trade adapter enqueues
it. -/
theorem adapter_filtering_witness :
    DS.depth_handler [] { e := "trade" } = [] ∧
    DS.trade_handler [] { e := "trade" } = [{ e := "trade" }] := by
  have h := adapter_filtering [] { e := "trade" }
  exact ⟨h.1 (by decide), ((h.2.2 (by decide)).1)⟩

/-!  ## Claim C8: minimum-notional guard in `enter_position` -/

/-- C8: whenever the computed notional
`round(balance * RISK_PER_TRADE * LEVERAGE / price, 3) * price` is below
20, `enter_position` submits no market order and leaves the position
record unchanged. -/
theorem enter_position_min_notional (sig : String) (price balance : ℚ)
    (res : OrderRes) (pos : Position)
    (h : Main.calc_qty balance price * price < 20) :
    Main.enter_position sig price balance res pos = (pos, []) := by
  simp [Main.enter_position, h]

/-- Concrete instance of `enter_position_min_notional`: with balance 1 and
price 100 the computed quantity is `round(0.18, 3) = 0.18`, notional 18 <
20, so no order is submitted and the position is untouched. -/
theorem enter_position_min_notional_witness :
    Main.calc_qty 1 100 * 100 < 20 ∧
    Main.enter_position "BUY" 100 1 { status := "NEW", orderId := some 5 }
      initPosition = (initPosition, []) := by
  refine ⟨by norm_num [Main.calc_qty, Main.pyRound3, Main.pyRoundHalfEven,
    Main.RISK_PER_TRADE, Main.LEVERAGE], ?_⟩
  exact enter_position_min_notional "BUY" 100 1 _ _
    (by norm_num [Main.calc_qty, Main.pyRound3, Main.pyRoundHalfEven,
      Main.RISK_PER_TRADE, Main.LEVERAGE])

/-!  ## Claim C9: bid/ask truncation in the trading loop -/

/-- C9: each trading-loop iteration truncates the snapshot's bid and ask
level lists to the length of the shorter side: the decision function
receives equally many bid and ask levels (`min(#bids, #asks)` per side),
the kept levels being the leading ones and the excess levels of the deeper
side being excluded. -/
theorem trading_loop_truncates (bids asks : List (ℚ × ℚ)) :
    (Main.truncate_levels bids asks).1.length =
      (Main.truncate_levels bids asks).2.length ∧
    (Main.truncate_levels bids asks).1.length =
      min bids.length asks.length ∧
    (Main.truncate_levels bids asks).1 =
      bids.take (min bids.length asks.length) ∧
    (Main.truncate_levels bids asks).2 =
      asks.take (min bids.length asks.length) := by
  refine ⟨?_, ?_, rfl, rfl⟩ <;>
    simp [Main.truncate_levels, List.length_take]

namespace Main

/-!  ## The position/command state machine (main.py + data_stream.py)

Both modules declare a module-level `position` dictionary of the same
shape, and the spec's architecture treats them as the one shared Position
record with two writers (the user-event adapter and the trading loop).
The events below are the five code paths that write the record or the
command queue; exchange responses are event parameters. -/

/-- The shared mutable state the claims quantify over: the `position`
record plus the pending entries of `command_queue`. -/
structure Sys where
  pos : Position
  cmds : List Command
deriving DecidableEq

/-- One atomic writer step:
* `enter`: `enter_position` (trading loop);
* `user`: `user_handler` (user-event adapter), appending its commands;
* `procCmd`: the trading loop draining one `place_stop_order` command
  (`run_trading` lines 194-200);
* `trailing`: `update_trailing_stop` (trading loop);
* `close`: `close_position` (trading loop). -/
inductive Ev where
  | enter (sig : String) (price balance : ℚ) (res : OrderRes)
  | user (m : UserMsg)
  | procCmd (stopRes : Option Int)
  | trailing (price : ℚ) (stopRes : Option Int)
  | close (res : OrderRes)
deriving DecidableEq

/-- Processing one queued command (`run_trading` lines 194-200): a
`place_stop_order` command unconditionally records its stop price and the
id the exchange returned for the placed stop order. -/
def proc_command (s : Sys) (stopRes : Option Int) : Sys :=
  match s.cmds with
  | [] => s
  | c :: rest =>
    if c.tag = "place_stop_order" then
      { pos := { s.pos with stop_price := some c.price, stop_order_id := stopRes },
        cmds := rest }
    else { s with cmds := rest }

/-- The transition function of the merged machine.  In the `trailing`
case, `Option.getD` keeps the state where the Python would raise
(`update_trailing_stop` on an open position with `entry = None`); no
reachable state hits that branch. -/
def stepEv (s : Sys) (e : Ev) : Sys :=
  match e with
  | .enter sig price balance res =>
    { s with pos := (enter_position sig price balance res s.pos).1 }
  | .user m =>
    let r := DS.user_handler s.pos m
    { pos := r.1, cmds := s.cmds ++ r.2 }
  | .procCmd stopRes => proc_command s stopRes
  | .trailing price stopRes =>
    { s with pos := (update_trailing_stop s.pos price stopRes).getD s.pos }
  | .close res =>
    { s with pos := (close_position res s.pos).1 }

/-- Reachable states: every state obtained from the initial cleared
record and empty command queue by a finite event sequence. -/
def runEvs (l : List Ev) : Sys :=
  l.foldl stepEv { pos := initPosition, cmds := [] }

/-- An event stream whose entry-fill messages carry positive cumulative
quantity and average price (what the exchange reports for a real fill). -/
def fill_positive : Ev → Prop
  | .user m => 0 < m.o.z ∧ 0 < m.o.ap
  | _ => True

/-- The part of the claimed Position invariant that does hold on every
reachable state. -/
def pos_invariant (p : Position) : Prop :=
  (p.state = "none" → p.entry = none ∧ p.qty = 0 ∧ p.max_pnl = 0) ∧
  (p.state = "long" ∨ p.state = "short" →
    ∃ e, p.entry = some e ∧ 0 < e ∧ 0 < p.qty)

theorem stepEv_preserves (s : Sys) (e : Ev) (he : fill_positive e)
    (h : pos_invariant s.pos) : pos_invariant (stepEv s e).pos := by
  cases e with
  | enter sig price balance res =>
    simp only [stepEv, enter_position]
    split_ifs <;> exact h
  | user m =>
    obtain ⟨hz, hap⟩ := he
    simp only [stepEv, DS.user_handler]
    by_cases h1 : m.e = "ORDER_TRADE_UPDATE"
    · simp only [if_pos h1]
      by_cases h2 : m.o.X = "FILLED"
      · simp only [if_pos h2]
        by_cases h3 : some m.o.i = s.pos.entry_order_id
        · simp only [if_pos h3]
          by_cases hbuy : m.o.S = "BUY"
          · simp only [if_pos hbuy]
            exact ⟨fun hst => absurd hst (show ("long" : String) ≠ "none" by decide),
              fun _ => ⟨m.o.ap, rfl, hap, hz⟩⟩
          · simp only [if_neg hbuy]
            exact ⟨fun hst => absurd hst (show ("short" : String) ≠ "none" by decide),
              fun _ => ⟨m.o.ap, rfl, hap, hz⟩⟩
        · simp only [if_neg h3]
          by_cases h4 : some m.o.i = s.pos.stop_order_id
          · simp only [if_pos h4]
            refine ⟨fun _ => ⟨rfl, rfl, rfl⟩, fun hor => ?_⟩
            rcases hor with h5 | h5
            · exact absurd h5 (show ("none" : String) ≠ "long" by decide)
            · exact absurd h5 (show ("none" : String) ≠ "short" by decide)
          · simp only [if_neg h4]; exact h
      · simp only [if_neg h2]; exact h
    · simp only [if_neg h1]; exact h
  | procCmd stopRes =>
    cases hc : s.cmds with
    | nil => simpa [stepEv, proc_command, hc] using h
    | cons c rest =>
      by_cases ht : c.tag = "place_stop_order"
      · simp only [stepEv, proc_command, hc, if_pos ht]; exact h
      · simp only [stepEv, proc_command, hc, if_neg ht]; exact h
  | trailing price stopRes =>
    by_cases hn : s.pos.state = "none"
    · simpa [stepEv, update_trailing_stop, hn] using h
    · cases hen : s.pos.entry with
      | none => simpa [stepEv, update_trailing_stop, hn, hen] using h
      | some e =>
        simp only [stepEv, update_trailing_stop, if_neg hn, hen]
        split_ifs <;>
          refine ⟨fun hst => absurd hst hn, fun hor => ?_⟩ <;>
          · obtain ⟨e₂, he₂, hpos, hq⟩ := h.2 hor
            exact ⟨e₂, hen ▸ he₂, hpos, hq⟩
  | close res =>
    simp only [stepEv, close_position]
    by_cases h1 : s.pos.state = "none"
    · simp only [if_pos h1]; exact h
    · simp only [if_neg h1]
      by_cases h2 : res.status = "FAILED"
      · simp only [if_pos h2]; exact h
      · simp only [if_neg h2]
        refine ⟨fun _ => ⟨rfl, rfl, rfl⟩, fun hor => ?_⟩
        rcases hor with h3 | h3
        · exact absurd h3 (show ("none" : String) ≠ "long" by decide)
        · exact absurd h3 (show ("none" : String) ≠ "short" by decide)

theorem runEvs_invariant_aux (l : List Ev) :
    ∀ s : Sys, (∀ e ∈ l, fill_positive e) → pos_invariant s.pos →
      pos_invariant (l.foldl stepEv s).pos := by
  induction l with
  | nil => intro s _ h; exact h
  | cons e rest ih =>
    intro s hl h
    exact ih (stepEv s e) (fun x hx => hl x (List.mem_cons_of_mem e hx))
      (stepEv_preserves s e (hl e (List.mem_cons_self e rest)) h)

end Main

/-!  ## Claim C4: the Position invariant -/

/-- Event trace reaching a pending entry: the entry order is accepted and
its id recorded while `state` is still `none`. -/
def pendingEntryEvents : List Main.Ev :=
  [.enter "BUY" 100 1000 { status := "NEW", orderId := some 42 }]

/-- Event trace reaching a cleared position with stop fields set: entry,
entry fill (which queues the stop command), manual close, and only then
the trading loop drains the queued `place_stop_order` command. -/
def staleStopEvents : List Main.Ev :=
  [.enter "BUY" 100 1000 { status := "NEW", orderId := some 42 },
   .user { e := "ORDER_TRADE_UPDATE",
           o := { i := 42, X := "FILLED", S := "BUY", z := 1, ap := 100 } },
   .close { status := "FILLED", orderId := some 7 },
   .procCmd (some 8)]

/-- C4 counterexample: two reachable states violate the claimed invariant
`state == none ⇒ entry_order_id, stop_order_id, entry, stop_price null ∧
qty, max_pnl zero`.  After a successful `enter_position` the state is
`none` with `entry_order_id = 42` set; and after entry fill, manual close,
and late processing of the queued stop command the state is `none` with
`stop_price = 98` and a stop order id set. -/
theorem position_invariant_counterexample :
    ((Main.runEvs pendingEntryEvents).pos.state = "none" ∧
     (Main.runEvs pendingEntryEvents).pos.entry_order_id = some 42) ∧
    ((Main.runEvs staleStopEvents).pos.state = "none" ∧
     (Main.runEvs staleStopEvents).pos.stop_price = some 98) := by
  norm_num +decide [Main.runEvs, Main.stepEv, Main.enter_position, Main.calc_qty,
    Main.pyRound3, Main.pyRoundHalfEven, Main.RISK_PER_TRADE, Main.LEVERAGE,
    DS.user_handler, Main.proc_command, Main.close_position, initPosition,
    pendingEntryEvents, staleStopEvents]

/-- C4 amended: in every reachable state of the merged machine,
`state == none` implies `entry` is null and `qty` and `max_pnl` are zero
(`entry_order_id` may remain set while an entry order is pending, and the
stop fields may be set when a queued stop command is processed after the
position was cleared); and `state ∈ {long, short}` implies `entry` is set,
and positive together with `qty` whenever every fill event carries a
positive price and quantity. -/
theorem position_invariant_reachable (l : List Main.Ev)
    (h : ∀ e ∈ l, Main.fill_positive e) :
    ((Main.runEvs l).pos.state = "none" →
      (Main.runEvs l).pos.entry = none ∧ (Main.runEvs l).pos.qty = 0 ∧
      (Main.runEvs l).pos.max_pnl = 0) ∧
    ((Main.runEvs l).pos.state = "long" ∨ (Main.runEvs l).pos.state = "short" →
      ∃ e, (Main.runEvs l).pos.entry = some e ∧ 0 < e ∧
        0 < (Main.runEvs l).pos.qty) :=
  Main.runEvs_invariant_aux l { pos := initPosition, cmds := [] } h
    ⟨fun _ => ⟨rfl, rfl, rfl⟩, fun hor => by
      rcases hor with h1 | h1
      · exact absurd h1 (show ("none" : String) ≠ "long" by decide)
      · exact absurd h1 (show ("none" : String) ≠ "short" by decide)⟩

/-- Event trace for the invariant witness: accepted entry followed by its
fill at price 100 for quantity 1. -/
def invariantEvents : List Main.Ev :=
  [.enter "BUY" 100 1000 { status := "NEW", orderId := some 42 },
   .user { e := "ORDER_TRADE_UPDATE",
           o := { i := 42, X := "FILLED", S := "BUY", z := 1, ap := 100 } }]

/-- Concrete instance of `position_invariant_reachable` on a trace whose
fill events are positive. -/
theorem position_invariant_reachable_witness :
    (∀ e ∈ invariantEvents, Main.fill_positive e) ∧
    ((Main.runEvs invariantEvents).pos.state = "long" ∨
        (Main.runEvs invariantEvents).pos.state = "short" →
      ∃ e, (Main.runEvs invariantEvents).pos.entry = some e ∧ 0 < e ∧
        0 < (Main.runEvs invariantEvents).pos.qty) :=
  have hp : ∀ e ∈ invariantEvents, Main.fill_positive e := by
    intro e he
    fin_cases he <;> norm_num [Main.fill_positive]
  ⟨hp, (position_invariant_reachable invariantEvents hp).2⟩

namespace DS

/-!  ## get_snapshot (data_stream.py lines 202-214)

Python dictionaries and lists are objects on a heap; `dict(...)` and
`list(...)` copy only the container, not the objects its entries point to.
The model makes this explicit: trade and bucket records live in a heap
addressed by index, the store and each snapshot hold lists of addresses,
and the bid/ask dicts and the ticker hold immutable numbers copied by
value. -/

/-- The heap of trade and bucket objects shared between the store and any
snapshots. -/
structure Heap where
  tradeObjs : List Trade
  bucketObjs : List Bucket
deriving DecidableEq

/-- The live `state` dictionary: bid/ask levels (price/quantity pairs of
immutable floats), `last_update_id`, the trade and volume rings as lists
of heap addresses, and the ticker scalar. -/
structure MState where
  bids : List (ℚ × ℚ)
  asks : List (ℚ × ℚ)
  last_update_id : Nat
  trades : List Nat
  volume_history : List Nat
  ticker_pct : ℚ
deriving DecidableEq

/-- The dictionary returned by `get_snapshot` (it carries no
`last_update_id`). -/
structure Snap where
  bids : List (ℚ × ℚ)
  asks : List (ℚ × ℚ)
  trades : List Nat
  volume_history : List Nat
  ticker_pct : ℚ
deriving DecidableEq

/-- `get_snapshot`: `dict(...)` on both book sides, `list(...)` on the
trade and volume rings, value copy of the ticker.  The containers are
fresh; the trade/bucket addresses they hold are the store's. -/
def get_snapshot (st : MState) : Snap :=
  { bids := st.bids, asks := st.asks, trades := st.trades,
    volume_history := st.volume_history, ticker_pct := st.ticker_pct }

/-- The trade objects a list of addresses denotes in a heap. -/
def viewTrades (h : Heap) (refs : List Nat) : List (Option Trade) :=
  refs.map fun a => h.tradeObjs.get? a

/-- The bucket objects a list of addresses denotes in a heap. -/
def viewBuckets (h : Heap) (refs : List Nat) : List (Option Bucket) :=
  refs.map fun a => h.bucketObjs.get? a

/-- Everything a reader of the live MarketState observes: book sides,
dereferenced trade ring, dereferenced volume ring, ticker. -/
def liveView (h : Heap) (st : MState) :
    List (ℚ × ℚ) × List (ℚ × ℚ) × List (Option Trade) × List (Option Bucket) × ℚ :=
  (st.bids, st.asks, viewTrades h st.trades, viewBuckets h st.volume_history,
   st.ticker_pct)

/-- Writing a level of the snapshot's own (copied) bid dict: the heap is
untouched, since the dict holds immutable numbers. -/
def snap_write_bid (s : Snap) (h : Heap) (p q : ℚ) : Snap × Heap :=
  ({ s with bids := s.bids.map fun x => if x.1 = p then (p, q) else x }, h)

/-- Overwriting the snapshot's own ticker scalar. -/
def snap_write_ticker (s : Snap) (h : Heap) (v : ℚ) : Snap × Heap :=
  ({ s with ticker_pct := v }, h)

/-- Removing an entry from the snapshot's own (copied) trade list: only
the copied container changes. -/
def snap_remove_trade (s : Snap) (h : Heap) (i : Nat) : Snap × Heap :=
  ({ s with trades := s.trades.eraseIdx i }, h)

/-- In-place mutation of a trade entry reached through the snapshot
(`snap["trades"][i]["qty"] = v`): writes the shared object in the heap. -/
def snap_write_trade_qty (s : Snap) (h : Heap) (i : Nat) (v : ℚ) : Snap × Heap :=
  match s.trades.get? i with
  | none => (s, h)
  | some a =>
    match h.tradeObjs.get? a with
    | none => (s, h)
    | some t => (s, { h with tradeObjs := h.tradeObjs.set a { t with qty := v } })

/-- In-place mutation of a volume bucket reached through the snapshot
(`snap["volume_history"][i]["volume"] = v`). -/
def snap_write_bucket_volume (s : Snap) (h : Heap) (i : Nat) (v : ℚ) : Snap × Heap :=
  match s.volume_history.get? i with
  | none => (s, h)
  | some a =>
    match h.bucketObjs.get? a with
    | none => (s, h)
    | some b => (s, { h with bucketObjs := h.bucketObjs.set a { b with volume := v } })

end DS

/-!  ## Claim C3: snapshot isolation -/

/-- Heap for the snapshot counterexample: one trade of quantity 1 and one
bucket of volume 5. -/
def cexHeap : DS.Heap :=
  { tradeObjs := [{ price := 100, qty := 1, is_buyer_maker := false,
                    time := 0, side := "BUY" }],
    bucketObjs := [{ time := 0, volume := 5 }] }

/-- Live store for the snapshot counterexample, pointing at the heap's
trade and bucket. -/
def cexState : DS.MState :=
  { bids := [(100, 2)], asks := [(101, 3)], last_update_id := 7,
    trades := [0], volume_history := [0], ticker_pct := 2 }

/-- C3 counterexample: `get_snapshot` is not a deep copy.  Setting the
`qty` of a trade entry of the returned snapshot, or the `volume` of a
returned volume bucket, changes what the live MarketState's rings denote,
because `list(state["trades"])` and `list(state["volume_history"])` copy
only the containers and share the entry objects. -/
theorem get_snapshot_not_deep_counterexample :
    DS.liveView (DS.snap_write_trade_qty (DS.get_snapshot cexState) cexHeap 0 99).2
        cexState ≠ DS.liveView cexHeap cexState ∧
    DS.liveView (DS.snap_write_bucket_volume (DS.get_snapshot cexState) cexHeap 0 77).2
        cexState ≠ DS.liveView cexHeap cexState := by
  constructor <;> decide

/-- C3 amended: `get_snapshot` is a one-level copy.  Two calls with no
intervening writes yield equal snapshots, and mutating the snapshot's own
containers — a level of its bid dict, its ticker scalar, or the membership
of its trade list — never changes the live MarketState's view; only
in-place mutation of the shared trade/bucket entry objects does (the
counterexample). -/
theorem get_snapshot_shallow (st : DS.MState) (h : DS.Heap) (p q v : ℚ) (i : Nat) :
    DS.get_snapshot st = DS.get_snapshot st ∧
    DS.liveView (DS.snap_write_bid (DS.get_snapshot st) h p q).2 st =
      DS.liveView h st ∧
    DS.liveView (DS.snap_write_ticker (DS.get_snapshot st) h v).2 st =
      DS.liveView h st ∧
    DS.liveView (DS.snap_remove_trade (DS.get_snapshot st) h i).2 st =
      DS.liveView h st :=
  ⟨rfl, rfl, rfl, rfl⟩

/-- `series.tail(n)` / the content of a `deque(maxlen=n)`: the last `n`
elements. -/
def takeRight (n : Nat) (l : List α) : List α :=
  l.drop (l.length - n)

namespace Sig

/-!  ## signal.py indicators

Pandas series of floats are modelled as lists of `PFloat := Option ℚ`,
`none` standing for NaN. -/

/-- A pandas float value; `none` models NaN. -/
abbrev PFloat := Option ℚ

/-- IEEE `<`: false whenever either side is NaN. -/
def pfLt (a b : PFloat) : Bool :=
  match a, b with
  | some x, some y => decide (x < y)
  | _, _ => false

/-- IEEE `>`: false whenever either side is NaN. -/
def pfGt (a b : PFloat) : Bool :=
  match a, b with
  | some x, some y => decide (y < x)
  | _, _ => false

/-- Recursion of the exponentially weighted mean with `adjust=False`:
`eᵢ = α xᵢ + (1-α) eᵢ₋₁`. -/
def emaGo (a prev : ℚ) : List ℚ → List ℚ
  | [] => []
  | x :: xs => (a * x + (1 - a) * prev) :: emaGo a (a * x + (1 - a) * prev) xs

/-- `calculate_ema` (`signal.py` lines 5-6): `ewm(span=span,
adjust=False).mean()`, i.e. `e₀ = x₀` and the recursion above with
`α = 2/(span+1)`. -/
def calculate_ema (span : Nat) (l : List ℚ) : List ℚ :=
  match l with
  | [] => []
  | x :: xs => x :: emaGo (2 / (span + 1 : ℚ)) x xs

/-- `series.diff()`: NaN at index 0, then successive differences. -/
def diffs (l : List ℚ) : List PFloat :=
  none :: (l.drop 1).zipWith (fun b a => some (b - a)) l

/-- `rolling(window=w).mean()` with the pandas default `min_periods = w`:
entry `i` is the mean of entries `i-w+1..i` when that window is full and
NaN-free, NaN otherwise. -/
def rollingMean (w : Nat) (l : List PFloat) : List PFloat :=
  (List.range l.length).map fun i =>
    if i + 1 < w then none
    else
      let win := (l.drop (i + 1 - w)).take w
      if win.all Option.isSome then some ((win.filterMap id).sum / (w : ℚ))
      else none

/-- `100 - 100/(1 + avg_gain/avg_loss)` with float semantics at the
singular points: `avg_loss = 0` with positive `avg_gain` gives
`rs = inf` and RSI 100; `0/0` gives NaN; NaN propagates. -/
def rsiPoint (g l : PFloat) : PFloat :=
  match g, l with
  | some g, some l =>
    if l = 0 then (if g = 0 then none else some 100)
    else some (100 - 100 / (1 + g / l))
  | _, _ => none

/-- `calculate_rsi` (`signal.py` lines 8-15). -/
def calculate_rsi (prices : List ℚ) (period : Nat) : List PFloat :=
  let delta := diffs prices
  let gain := delta.map (Option.map fun x => max x 0)
  let loss := delta.map (Option.map fun x => -(min x 0))
  let avg_gain := rollingMean period gain
  let avg_loss := rollingMean period loss
  List.zipWith rsiPoint avg_gain avg_loss

/-- `calculate_vwap` (`signal.py` lines 17-21): Python `None` on an empty
frame, otherwise `Σ(price·qty)/Σqty` — NaN (`some none`) when `Σqty = 0`
(float `0/0` for the non-negative quantities the feed parses). -/
def calculate_vwap (df : List Trade) : Option PFloat :=
  if df = [] then none
  else
    let num := (df.map fun t => t.price * t.qty).sum
    let den := (df.map Trade.qty).sum
    if den = 0 then some none else some (some (num / den))

/-- The true-range row for consecutive prices `a, b`:
`max(hi - lo, |hi - a|, |lo - a|)` with `hi = max a b`, `lo = min a b`
(pandas `concat([...], axis=1).max(axis=1)`). -/
def trueRanges (l : List ℚ) : List ℚ :=
  (l.drop 1).zipWith
    (fun b a => max (max a b - min a b) (max |max a b - a| |min a b - a|)) l

/-- `calculate_atr` (`signal.py` lines 23-35): `None` when fewer than
`period+1` prices, otherwise the mean of the last `period` true ranges
(the last entry of `tr.rolling(period).mean()`; the length guard keeps
the NaN row at index 0 out of that window). -/
def calculate_atr (prices : List ℚ) (period : Nat) : Option ℚ :=
  if prices.length < period + 1 then none
  else some (((takeRight period (trueRanges prices)).sum) / (period : ℚ))

/-- `volume_trend volume_df > 1/2` (`signal.py` lines 54-60 and 90).
`volume_trend` is `(last - mean)/std(ddof=0)`, `0` on an empty or
column-less frame or when the deviation is zero.  The square root is
eliminated: for positive variance, `score > 1/2 ↔ last - mean > 0 ∧
(last - mean)² > var/4`. -/
def volume_trend_gt_half (vdf : List Bucket) : Bool :=
  if vdf = [] then false
  else
    let vs := vdf.map Bucket.volume
    let mean := vs.sum / (vs.length : ℚ)
    let var := (vs.map fun x => (x - mean) ^ 2).sum / (vs.length : ℚ)
    let d := (vs.getLast?).getD 0 - mean
    if var = 0 then false else decide (0 < d) && decide (var / 4 < d ^ 2)

/-- `volume_trend volume_df < -1/2` (`signal.py` line 99), with the square
root eliminated as in `volume_trend_gt_half`. -/
def volume_trend_lt_neg_half (vdf : List Bucket) : Bool :=
  if vdf = [] then false
  else
    let vs := vdf.map Bucket.volume
    let mean := vs.sum / (vs.length : ℚ)
    let var := (vs.map fun x => (x - mean) ^ 2).sum / (vs.length : ℚ)
    let d := (vs.getLast?).getD 0 - mean
    if var = 0 then false else decide (d < 0) && decide (var / 4 < d ^ 2)

/-- `volume_df["volume"].astype(float)` (`signal.py` line 70): a DataFrame
built from an empty list has no columns, so the access raises `KeyError`;
on a non-empty frame it yields the volume column. -/
def getVolumeColumn (vdf : List Bucket) : Except String (List ℚ) :=
  if vdf = [] then .error "KeyError: volume" else .ok (vdf.map Bucket.volume)

/-- `generate_signal` (`signal.py` lines 63-113).  Mirrors the source
line by line: the empty-df/empty-trades guard, the ratio metrics, the
(unused) volume-column access of line 70 — which raises `KeyError` on an
empty volume frame — the indicators (the unused `ticker_pct` and `atr`
bindings included), and the two threshold branches. -/
def generate_signal (df : List OBRow) (trades_df : List Trade)
    (volume_df : List Bucket) (ticker_data : ℚ) : Except String String :=
  if df = [] ∨ trades_df = [] then .ok "HOLD"
  else
    let ob_r := order_book_pressure df
    let tr_r := trade_dominance trades_df
    match getVolumeColumn volume_df with
    | .error e => .error e
    | .ok _volumes =>
      let _ticker_pct := ticker_data
      let prices := takeRight 100 (trades_df.map Trade.price)
      let ema_fast := calculate_ema 12 prices
      let ema_slow := calculate_ema 26 prices
      let rsi := calculate_rsi prices 14
      match calculate_vwap trades_df with
      | none => .error "TypeError: comparison with None"
      | some vwap =>
        let _atr := calculate_atr prices 14
        let latest_price := (prices.getLast?).getD 0
        match ema_fast.getLast?, ema_slow.getLast?, rsi.getLast? with
        | some last_fast, some last_slow, some rsi_last =>
          if ob_r > 13/10 ∧ tr_r > 12/10 ∧
             volume_trend_gt_half volume_df = true ∧
             last_fast > last_slow ∧ pfLt rsi_last (some 70) = true ∧
             pfGt (some latest_price) vwap = true
          then .ok "BUY"
          else if ob_r < 7/10 ∧ tr_r < 8/10 ∧
             volume_trend_lt_neg_half volume_df = true ∧
             last_fast < last_slow ∧ pfGt rsi_last (some 30) = true ∧
             pfLt (some latest_price) vwap = true
          then .ok "SELL"
          else .ok "HOLD"
        | _, _, _ => .error "IndexError"

end Sig

/-!  ## Claim C6: generate_signal on empty inputs -/

/-- C6: `generate_signal` returns HOLD when the order-book frame or the
trades frame is empty, but on an empty volume-bucket frame with non-empty
book and trades it raises `KeyError` (the dead `volumes =
volume_df["volume"]` assignment of `signal.py` line 70) instead of
returning HOLD. -/
theorem generate_signal_empty_inputs :
    Sig.generate_signal []
        [{ price := 201/2, qty := 1, is_buyer_maker := false, time := 0, side := "BUY" }]
        [{ time := 0, volume := 5 }] (3/2) = .ok "HOLD" ∧
    Sig.generate_signal
        [{ price := 100, bid_qty := 2, ask_price := 101, ask_qty := 3 }]
        [] [{ time := 0, volume := 5 }] (3/2) = .ok "HOLD" ∧
    Sig.generate_signal
        [{ price := 100, bid_qty := 2, ask_price := 101, ask_qty := 3 }]
        [{ price := 201/2, qty := 1, is_buyer_maker := false, time := 0, side := "BUY" }]
        [] (3/2) = .error "KeyError: volume" := by
  refine ⟨rfl, rfl, ?_⟩
  rfl

namespace DS

/-!  ## Trade consumers and volume buckets (data_stream.py lines 127-161)

`time.time()` is an input of `_update_volumes_locked`; it is passed
explicitly as `now` (wall-clock seconds).  The theorems instantiate `now`
with the arriving trade's own exchange timestamp — the reading under
which the claim's "current minute" is determined by the event stream. -/

/-- Appending to a `deque(maxlen=cap)`: the oldest entries beyond the
capacity are evicted from the front. -/
def pushRing (cap : Nat) (l : List α) (x : α) : List α :=
  takeRight cap (l ++ [x])

/-- The trade ring (`deque(maxlen=100)`) and volume ring
(`deque(maxlen=20)`) of the `state` dictionary. -/
structure TradeStore where
  trades : List Trade
  volume_history : List Bucket
deriving DecidableEq

/-- `_update_volumes_locked` (`data_stream.py` lines 155-161):
`current_time = int(now // 60) * 60`; the current-minute volume is summed
over all ring trades with `trade["time"] // 1000 >= current_time`; the
last bucket is overwritten if its minute is still current, otherwise a
new bucket is appended (evicting past the ring capacity of 20). -/
def update_volumes (now : Nat) (st : TradeStore) : TradeStore :=
  let current_time := now / 60 * 60
  let current_volume :=
    ((st.trades.filter fun t => current_time ≤ t.time / 1000).map Trade.qty).sum
  let newBucket : Bucket := { time := current_time, volume := current_volume }
  if (st.volume_history.getLast?).map Bucket.time = some current_time then
    { st with volume_history := st.volume_history.dropLast ++ [newBucket] }
  else
    { st with volume_history := pushRing 20 st.volume_history newBucket }

/-- One `_process_trades` / `_process_aggtrades` iteration: append the
trade to the 100-ring, then recompute the volume buckets. -/
def process_trade (st : TradeStore) (tr : Trade) (now : Nat) : TradeStore :=
  update_volumes now { st with trades := pushRing 100 st.trades tr }

/-- Applying a stream of trades, each arriving at the wall-clock second
of its own exchange timestamp. -/
def apply_trades (l : List Trade) : TradeStore :=
  l.foldl (fun st t => process_trade st t (t.time / 1000))
    { trades := [], volume_history := [] }

/-- The minute-aligned timestamp (seconds) of a trade. -/
def minuteOf (t : Trade) : Nat := t.time / 1000 / 60 * 60

/-- Collapse adjacent duplicates: the distinct minutes touched, in order,
of a non-decreasing minute sequence. -/
def dedupAdj : List Nat → List Nat
  | [] => []
  | [a] => [a]
  | a :: b :: r => if a = b then dedupAdj (b :: r) else a :: dedupAdj (b :: r)

end DS

namespace DS

theorem dedupAdj_ne_nil : ∀ (l : List Nat), l ≠ [] → dedupAdj l ≠ []
  | [], h => absurd rfl h
  | [a], _ => by simp [dedupAdj]
  | a :: b :: r, _ => by
    by_cases hab : a = b
    · simpa [dedupAdj, hab] using dedupAdj_ne_nil (b :: r) (by simp)
    · simp [dedupAdj, hab]

theorem dedupAdj_getLast? : ∀ (l : List Nat), (dedupAdj l).getLast? = l.getLast?
  | [] => rfl
  | [a] => rfl
  | a :: b :: r => by
    by_cases hab : a = b
    · rw [show dedupAdj (a :: b :: r) = dedupAdj (b :: r) by simp [dedupAdj, hab],
        dedupAdj_getLast? (b :: r), List.getLast?_cons_cons]
    · rw [show dedupAdj (a :: b :: r) = a :: dedupAdj (b :: r) by simp [dedupAdj, hab],
        List.getLast?_cons_cons]
      obtain ⟨x, xs, hX⟩ :=
        List.exists_cons_of_ne_nil (dedupAdj_ne_nil (b :: r) (by simp))
      rw [hX, List.getLast?_cons_cons, ← hX, dedupAdj_getLast? (b :: r)]

theorem dedupAdj_append_eq : ∀ (l : List Nat) (a : Nat), l.getLast? = some a →
    dedupAdj (l ++ [a]) = dedupAdj l
  | [], a, h => by simp at h
  | [x], a, h => by
    simp only [List.getLast?_singleton, Option.some.injEq] at h
    subst h
    simp [dedupAdj]
  | x :: y :: r, a, h => by
    rw [List.getLast?_cons_cons] at h
    have ih := dedupAdj_append_eq (y :: r) a h
    by_cases hxy : x = y <;>
      simp only [List.cons_append, dedupAdj, hxy, reduceIte] <;>
      rw [show (y :: r) ++ [a] = y :: (r ++ [a]) from rfl] at ih <;>
      simp [ih]

theorem dedupAdj_append_ne : ∀ (l : List Nat) (a : Nat), l.getLast? ≠ some a →
    dedupAdj (l ++ [a]) = dedupAdj l ++ [a]
  | [], a, _ => rfl
  | [x], a, h => by
    simp only [List.getLast?_singleton, ne_eq, Option.some.injEq] at h
    simp [dedupAdj, h]
  | x :: y :: r, a, h => by
    rw [List.getLast?_cons_cons] at h
    have ih := dedupAdj_append_ne (y :: r) a h
    by_cases hxy : x = y <;>
      simp only [List.cons_append, dedupAdj, hxy, reduceIte] <;>
      rw [show (y :: r) ++ [a] = y :: (r ++ [a]) from rfl] at ih <;>
      simp [ih]

end DS

namespace DS

theorem takeRight_append_one (cap : Nat) (l : List α) (x : α) :
    takeRight cap (takeRight cap l ++ [x]) = takeRight cap (l ++ [x]) := by
  simp only [takeRight, List.length_append, List.length_drop,
    List.length_singleton]
  rw [List.drop_append_eq_append_drop, List.drop_append_eq_append_drop,
    List.drop_drop]
  simp only [List.length_drop]
  congr 2 <;> omega

theorem map_pushRing (f : α → β) (cap : Nat) (l : List α) (x : α) :
    (pushRing cap l x).map f = pushRing cap (l.map f) (f x) := by
  simp [pushRing, takeRight, List.map_drop]

theorem takeRight_ne_nil (n : Nat) (l : List α) (hn : 0 < n) (hl : l ≠ []) :
    takeRight n l ≠ [] := by
  have hpos : 0 < l.length := List.length_pos.mpr hl
  simp only [takeRight, ne_eq, List.drop_eq_nil_iff]
  omega

theorem getLast?_takeRight (n : Nat) (l : List α) (hn : 0 < n) :
    (takeRight n l).getLast? = l.getLast? := by
  rcases eq_or_ne l [] with rfl | hl
  · simp [takeRight]
  · conv_rhs => rw [← List.take_append_drop (l.length - n) l]
    rw [takeRight, List.getLast?_append_of_ne_nil]
    exact takeRight_ne_nil n l hn hl

theorem mem_takeRight {a : α} (n : Nat) (l : List α) (h : a ∈ takeRight n l) :
    a ∈ l :=
  List.drop_subset _ _ h

theorem getLast?_pushRing (cap : Nat) (hc : 0 < cap) (l : List α) (x : α) :
    (pushRing cap l x).getLast? = some x := by
  rw [pushRing, getLast?_takeRight _ _ hc, List.getLast?_concat]

end DS

namespace DS

/-- The shape of the store after applying a time-sorted trade stream:
the trade ring holds the last 100 trades; the bucket times are the last
(up to) 20 distinct minutes touched, in order; and the last bucket
carries the newest trade's minute together with the recomputed ring sum
(the code's `>= current_time` filter). -/
def storeInv (l : List Trade) (st : TradeStore) : Prop :=
  st.trades = takeRight 100 l ∧
  st.volume_history.map Bucket.time = takeRight 20 (dedupAdj (l.map minuteOf)) ∧
  ∀ lastT, l.getLast? = some lastT →
    st.volume_history.getLast? = some
      { time := minuteOf lastT,
        volume := ((st.trades.filter
            fun t => minuteOf lastT ≤ t.time / 1000).map Trade.qty).sum }

theorem apply_trades_inv (l : List Trade)
    (hs : List.Chain' (fun a b => a.time ≤ b.time) l) :
    storeInv l (apply_trades l) := by
  induction l using List.reverseRecOn with
  | nil => exact ⟨rfl, rfl, by simp⟩
  | append_singleton l t ih =>
    obtain ⟨hcl, -, hrel⟩ := List.chain'_append.mp hs
    obtain ⟨h1, h2, h3⟩ := ih hcl
    have happ : apply_trades (l ++ [t]) =
        process_trade (apply_trades l) t (t.time / 1000) := by
      simp [apply_trades, List.foldl_append]
    have hct : t.time / 1000 / 60 * 60 = minuteOf t := rfl
    have htr : pushRing 100 (apply_trades l).trades t = takeRight 100 (l ++ [t]) := by
      rw [h1, pushRing, takeRight_append_one]
    rcases eq_or_ne l [] with rfl | hl
    · rw [happ]
      refine ⟨htr, ?_, ?_⟩
      · simp [apply_trades, process_trade, update_volumes, pushRing, takeRight,
          dedupAdj, hct]
      · intro lastT hlast
        simp only [List.nil_append, List.getLast?_singleton,
          Option.some.injEq] at hlast
        subst hlast
        simp [apply_trades, process_trade, update_volumes, pushRing, takeRight,
          hct]
    · obtain ⟨lastL, hlastL⟩ :=
        Option.ne_none_iff_exists'.mp (mt List.getLast?_eq_none_iff.mp hl)
      have hmono : lastL.time ≤ t.time := hrel lastL hlastL t rfl
      have hbl := h3 lastL hlastL
      rw [happ]
      simp only [process_trade, update_volumes]
      rw [hbl]
      by_cases heq : minuteOf lastL = minuteOf t
      · rw [if_pos (by simp only [Option.map_some', hct, heq])]
        have hvt : ((apply_trades l).volume_history.map Bucket.time).getLast? =
            some (minuteOf t) := by
          simp only [List.getLast?_map, hbl, Option.map_some', heq]
        have hmt : (l.map minuteOf).getLast? = some (minuteOf t) := by
          simp only [List.getLast?_map, hlastL, Option.map_some', heq]
        refine ⟨htr, ?_, ?_⟩
        · simp only [List.map_append, List.map_dropLast, List.map_cons,
            List.map_nil, hct]
          rw [List.dropLast_append_getLast? _ hvt, h2,
            dedupAdj_append_eq _ _ hmt]
        · intro lastT hlast
          rw [List.getLast?_concat] at hlast
          obtain rfl : t = lastT := by injection hlast
          dsimp only
          rw [List.getLast?_concat, hct]
      · rw [if_neg (by simp only [Option.map_some', hct,
          Option.some.injEq]; exact fun h => heq h)]
        have hmt : (l.map minuteOf).getLast? ≠ some (minuteOf t) := by
          simp only [List.getLast?_map, hlastL, Option.map_some',
            ne_eq, Option.some.injEq]
          exact heq
        refine ⟨htr, ?_, ?_⟩
        · simp only [map_pushRing, List.map_append, List.map_cons,
            List.map_nil, hct]
          rw [h2, pushRing, takeRight_append_one,
            dedupAdj_append_ne _ _ hmt]
        · intro lastT hlast
          rw [List.getLast?_concat] at hlast
          obtain rfl : t = lastT := by injection hlast
          dsimp only
          rw [getLast?_pushRing 20 (by norm_num), hct]

end DS

/-!  ## Claim C5: volume buckets per minute -/

/-- C5 amended: for a trade stream with non-decreasing timestamps (each
applied at the wall-clock second of its own timestamp), the volume ring
holds exactly one bucket per distinct minute among the most recent (up
to) 20 minutes touched, in order; and the current bucket carries the
newest trade's minute and the sum of the quantities of exactly the trades
in the trade ring whose timestamp lies in that minute. -/
theorem volume_bucket_progression (l : List Trade)
    (hs : List.Chain' (fun a b => a.time ≤ b.time) l) :
    ((DS.apply_trades l).volume_history.map Bucket.time =
      takeRight 20 (DS.dedupAdj (l.map DS.minuteOf))) ∧
    ∀ lastT, l.getLast? = some lastT →
      (DS.apply_trades l).volume_history.getLast? = some
        { time := DS.minuteOf lastT,
          volume := (((DS.apply_trades l).trades.filter
              fun t => DS.minuteOf t = DS.minuteOf lastT).map Trade.qty).sum } := by
  obtain ⟨h1, h2, h3⟩ := DS.apply_trades_inv l hs
  refine ⟨h2, ?_⟩
  intro lastT hlast
  have hmem : ∀ u ∈ l, u.time ≤ lastT.time := by
    haveI : IsTrans Trade (fun a b => a.time ≤ b.time) :=
      ⟨fun a b c => Nat.le_trans⟩
    have hp := List.chain'_iff_pairwise.mp hs
    have hsplit := List.dropLast_append_getLast? lastT hlast
    rw [← hsplit] at hp
    obtain ⟨-, -, hcross⟩ := List.pairwise_append.mp hp
    intro u hu
    rw [← hsplit, List.mem_append] at hu
    rcases hu with hu | hu
    · exact hcross u hu lastT (List.mem_singleton_self lastT)
    · rw [List.mem_singleton] at hu
      subst hu
      exact le_refl _
  have hfil : (DS.apply_trades l).trades.filter
        (fun t => decide (DS.minuteOf lastT ≤ t.time / 1000)) =
      (DS.apply_trades l).trades.filter
        (fun t => decide (DS.minuteOf t = DS.minuteOf lastT)) := by
    refine List.filter_congr ?_
    intro u hu
    have hul : u ∈ l := DS.mem_takeRight 100 l (by rw [← h1]; exact hu)
    have hub : u.time ≤ lastT.time := hmem u hul
    refine decide_eq_decide.mpr ?_
    unfold DS.minuteOf
    omega
  rw [h3 lastT hlast, hfil]

/-- Twenty-one trades of quantity 1, one per minute, minutes 0 through
20, with non-decreasing timestamps. -/
def cexTrades21 : List Trade :=
  (List.range 21).map fun i =>
    { price := 100, qty := 1, is_buyer_maker := false,
      time := i * 60000, side := "BUY" }

/-- C5 counterexample: after 21 trades touching 21 distinct minutes, the
volume ring does not contain one bucket per distinct minute touched —
minute 0 was touched (by the first trade) yet no bucket for it remains,
because the bucket ring caps at 20 and evicts the oldest. -/
theorem volume_bucket_counterexample :
    List.Chain' (fun a b => a.time ≤ b.time) cexTrades21 ∧
    (cexTrades21.map DS.minuteOf).head? = some 0 ∧
    ∀ b ∈ (DS.apply_trades cexTrades21).volume_history, b.time ≠ 0 := by
  have hc : List.Chain' (fun a b => a.time ≤ b.time) cexTrades21 := by
    rw [cexTrades21, List.chain'_map]
    exact (List.chain'_range_succ (fun i j => i * 60000 ≤ j * 60000) 20).mpr
      fun m _ => by omega
  obtain ⟨-, h2, -⟩ := DS.apply_trades_inv cexTrades21 hc
  refine ⟨hc, by decide, ?_⟩
  intro b hb h0
  have hmem : b.time ∈ (DS.apply_trades cexTrades21).volume_history.map Bucket.time :=
    List.mem_map_of_mem Bucket.time hb
  rw [h2, h0] at hmem
  exact absurd hmem (by decide)

/-- Two trades in two distinct minutes for the progression witness. -/
def wTrades : List Trade :=
  [{ price := 100, qty := 2, is_buyer_maker := false, time := 0, side := "BUY" },
   { price := 101, qty := 3, is_buyer_maker := true, time := 61000, side := "SELL" }]

/-- Concrete instance of `volume_bucket_progression`: trades at minutes 0
and 60 leave one bucket per minute, in order. -/
theorem volume_bucket_progression_witness :
    List.Chain' (fun a b => a.time ≤ b.time) wTrades ∧
    (DS.apply_trades wTrades).volume_history.map Bucket.time = [0, 60] :=
  have hc : List.Chain' (fun a b => a.time ≤ b.time) wTrades :=
    List.chain'_pair.mpr (by norm_num [wTrades])
  ⟨hc, ((volume_bucket_progression wTrades hc).1).trans (by decide)⟩
